import Mathlib

/-!
Shallow embedding of the `retro` event-reconstruction code, centred on
`src/retro/reco.py` (the event index builder, the loglike closure, and the
`run_mymini` spherical-simplex optimizer) and `src/retro/const.py`
(sensor index arithmetic).  Machine floats are embedded as `PyFloat`
(an exact rational payload plus the non-finite IEEE values) where
non-finiteness matters, as exact rationals for purely discrete logic,
and as real numbers for the spherical geometry.
-/

namespace Retro

/-! ### Floating-point values with IEEE non-finite semantics

Used where the code's `np.isfinite` checks and comparisons against
non-finite values are what a claim is about. -/

/-- A Python/numpy float: NaN, ±infinity, or a finite value (embedded exactly). -/
inductive PyFloat where
  | nan : PyFloat
  | inf : PyFloat
  | neginf : PyFloat
  | val : ℚ → PyFloat
deriving DecidableEq, Repr

/-- `np.isfinite`. -/
def PyFloat.isfinite : PyFloat → Bool
  | .val _ => true
  | _ => false

/-- IEEE `<` comparison: any comparison with NaN is false. -/
def PyFloat.plt : PyFloat → PyFloat → Bool
  | .nan, _ => false
  | _, .nan => false
  | .neginf, .neginf => false
  | .neginf, _ => true
  | _, .neginf => false
  | .inf, _ => false
  | .val _, .inf => true
  | .val a, .val b => decide (a < b)

/-- IEEE addition restricted to the cases that arise when summing charges. -/
def PyFloat.fadd : PyFloat → PyFloat → PyFloat
  | .nan, _ => .nan
  | _, .nan => .nan
  | .inf, .neginf => .nan
  | .neginf, .inf => .nan
  | .inf, _ => .inf
  | _, .inf => .inf
  | .neginf, _ => .neginf
  | _, .neginf => .neginf
  | .val a, .val b => .val (a + b)

/-- `np.sum` over a list of floats (left fold starting from 0). -/
def fsum (l : List PyFloat) : PyFloat := l.foldl PyFloat.fadd (.val 0)

/-! ### `src/retro/const.py`: sensor index arithmetic -/

/-- `NUM_STRINGS = 86`. -/
def NUM_STRINGS : ℕ := 86

/-- `get_sd_idx(string, om, pmt=0)`: raises `NotImplementedError` when any
`pmt` is nonzero, else returns `(om - 1) * NUM_STRINGS + (string - 1)`. -/
def get_sd_idx (string om pmt : ℕ) : Except String ℕ :=
  if pmt ≠ 0 then .error "PMT != 0 is not implemented"
  else .ok ((om - 1) * NUM_STRINGS + (string - 1))

/-- `get_string_om_pair(sd_idx)`: `om_idx, string_idx = divmod(sd_idx, NUM_STRINGS)`
then `(string_idx + 1, om_idx + 1)`. -/
def get_string_om_pair (sd_idx : ℕ) : ℕ × ℕ :=
  let om_idx := sd_idx / NUM_STRINGS
  let string_idx := sd_idx % NUM_STRINGS
  (string_idx + 1, om_idx + 1)

/-! ### `generate_loglike` (reco.py lines 313-508): event index build and checks -/

/-- The static per-sensor inputs to the event index build, together with the
charges of the hits belonging to this sensor in the current event
(`hits[start:stop]['charge']`). -/
structure EventSensor where
  operational : Bool
  noise_rate_per_ns : ℚ
  quantum_efficiency : ℚ
  hit_charges : List PyFloat
deriving DecidableEq, Repr

/-- One entry of the `event_dom_info` array (the fields the claims are about). -/
structure DomRecord where
  noise_rate_per_ns : ℚ
  quantum_efficiency : ℚ
  total_observed_charge : PyFloat
deriving DecidableEq, Repr

/-- The per-DOM fill loop of `generate_loglike`: keep only operational sensors
and compute each one's `total_observed_charge` as the sum of its hits' charges
(zero for a sensor with no hits, which `fsum []` gives). -/
def buildDomRecords (sensors : List EventSensor) : List DomRecord :=
  (sensors.filter (·.operational)).map fun s =>
    { noise_rate_per_ns := s.noise_rate_per_ns
      quantum_efficiency := s.quantum_efficiency
      total_observed_charge := fsum s.hit_charges }

/-- The configured noise floor `1e-7` per ns. -/
def NOISE_FLOOR : ℚ := 1 / 10000000

/-- `noise[noise < 1e-7] = 1e-7`: clamp a single noise rate up to the floor. -/
def clampNoise (r : ℚ) : ℚ := if r < NOISE_FLOOR then NOISE_FLOOR else r

/-- `event_dom_info` after the noise-floor pass. -/
def processedDoms (sensors : List EventSensor) : List DomRecord :=
  (buildDomRecords sensors).map fun d =>
    { d with noise_rate_per_ns := clampNoise d.noise_rate_per_ns }

/-- The assertion block of `generate_loglike` (reco.py lines 417-419), run after
the arrays are built and before the `loglike` closure is returned:
`assert np.sum(qe <= 0) == 0`, `assert np.sum(total_observed_charge) > 0`,
`assert np.isfinite(np.sum(total_observed_charge))`. -/
def generate_loglike_checks (sensors : List EventSensor) :
    Except String (List DomRecord) :=
  let doms := processedDoms sensors
  let total := fsum (doms.map (·.total_observed_charge))
  if (doms.all fun d => decide (0 < d.quantum_efficiency)) = false then
    .error "negative QE"
  else if PyFloat.plt (.val 0) total = false then
    .error "no charge"
  else if total.isfinite = false then
    .error "inf charge"
  else
    .ok doms

/-- `RetroReco.run` for one event: `generate_loglike` runs first; only when it
returns normally is an optimizer method invoked on the built arrays.  The
optimizer is abstracted as any function producing the event's evaluation
trace of log-likelihood values. -/
def runEvent (sensors : List EventSensor)
    (optimize : List DomRecord → List ℚ) : Except String (List ℚ) :=
  match generate_loglike_checks sensors with
  | .error e => .error e
  | .ok doms => .ok (optimize doms)

/-- The assertion guard inside the `loglike` closure (reco.py lines 465-466):
`assert np.isfinite(llh)` then `assert llh < 0`, after which `llh` is
returned to the optimizer. -/
def loglikeCheck (llh : PyFloat) : Except String PyFloat :=
  if llh.isfinite = false then .error "LLH not finite"
  else if PyFloat.plt llh (.val 0) = false then .error "LLH positive"
  else .ok llh

/-! ### `run_mymini` (reco.py lines 551-889): discrete loop logic -/

/-- `np.argmax` over a list: index of the first occurrence of the maximum. -/
def argmaxIdx (l : List ℚ) : ℕ :=
  (List.range l.length).foldl (fun b i => if l.getD b 0 < l.getD i 0 then i else b) 0

/-- `np.argmin` over a list: index of the first occurrence of the minimum. -/
def argminIdx (l : List ℚ) : ℕ :=
  (List.range l.length).foldl (fun b i => if l.getD i 0 < l.getD b 0 then i else b) 0

/-- `np.min` of a nonempty list (0 for the empty list, which the code never
takes the minimum of). -/
def listMin : List ℚ → ℚ
  | [] => 0
  | x :: xs => xs.foldl min x

/-- `choice[choice >= best_idx] += 1` applied to one drawn value: the draw is
over `N - 1` values and every value `≥ best_idx` is shifted up by one, so the
adjusted indices range over the population with `best_idx` excluded. -/
def adjustChoice (best c : ℕ) : ℕ := if best ≤ c then c + 1 else c

/-- The indices whose candidates are averaged into the centroid:
`choice[:-1]` (after adjustment) plus `best_idx`
(`centroid = (sum(S[choice[:-1]]) + S[best_idx]) / n`). -/
def centroidIndices (best : ℕ) (choice : List ℕ) : List ℕ :=
  choice.dropLast.map (adjustChoice best) ++ [best]

/-- The index of the candidate that gets reflected through the centroid:
`choice[-1]` after adjustment (`new = 2*centroid - S[choice[-1]]`). -/
def reflectedIndex (best : ℕ) (choice : List ℕ) : ℕ :=
  adjustChoice best (choice.getLastD 0)

/-- One iteration's replacement decision: the worst candidate (`argmax fx`) is
replaced exactly when the newly evaluated objective is strictly smaller than
its objective (`if new_fx < fx[worst_idx]: fx[worst_idx] = new_fx`). -/
def acceptStep (fx : List ℚ) (newFx : ℚ) : List ℚ :=
  let worst := argmaxIdx fx
  if newFx < fx.getD worst 0 then fx.set worst newFx else fx

/-- The main loop's effect on the objective array over a run: each iteration
either performs `acceptStep` with that iteration's newly evaluated objective,
or leaves the population unchanged (bounds rejection / break conditions). -/
def runLoop : List ℚ → List ℚ → List ℚ
  | fx, [] => fx
  | fx, v :: vs => runLoop (acceptStep fx v) vs

/-! ### `run_mymini`: spherical coordinate records and geometry

The `spher_cord` dtype and the closures `fill_from_spher`, `fill_from_cart`
and `reflect` (reco.py lines 590-670), embedded over the reals. -/

/-- The `spher_cord` record: the two angles, the unit-vector components, and
cached trigonometric values. -/
structure SpherCoord where
  zen : ℝ
  az : ℝ
  x : ℝ
  y : ℝ
  z : ℝ
  sinzen : ℝ
  coszen : ℝ
  sinaz : ℝ
  cosaz : ℝ

/-- `np.arctan2(y, x)`, embedded as the complex argument of `x + y i`
(range `(-π, π]`, with `arctan2 0 0 = 0`). -/
noncomputable def arctan2 (y x : ℝ) : ℝ := Complex.arg ⟨x, y⟩

/-- Python's `%` on reals with a positive modulus: `a - m * ⌊a / m⌋`. -/
noncomputable def pymod (a m : ℝ) : ℝ := a - m * ⌊a / m⌋

/-- `fill_from_spher(s)`: fill the trig caches and the unit vector from the
angles `zen`, `az`. -/
noncomputable def fill_from_spher (s : SpherCoord) : SpherCoord :=
  { s with
    sinzen := Real.sin s.zen
    coszen := Real.cos s.zen
    sinaz := Real.sin s.az
    cosaz := Real.cos s.az
    x := Real.sin s.zen * Real.cos s.az
    y := Real.sin s.zen * Real.sin s.az
    z := Real.cos s.zen }

/-- `fill_from_cart(s)`: re-normalize `(x, y, z)` and derive the angles and
trig caches from it; when the radius is zero, fix the direction to the pole
`zen = 0` (leaving `x` and `y` as they were, as the code does). -/
noncomputable def fill_from_cart (s : SpherCoord) : SpherCoord :=
  let radius := Real.sqrt (s.x ^ 2 + s.y ^ 2 + s.z ^ 2)
  if radius = 0 then
    { s with z := 1, az := 0, zen := 0, coszen := 1, sinzen := 0, cosaz := 1, sinaz := 0 }
  else
    let x := s.x / radius
    let y := s.y / radius
    let z := s.z / radius
    let az := pymod (arctan2 y x) (2 * Real.pi)
    let zen := Real.arccos z
    { zen := zen, az := az, x := x, y := y, z := z,
      sinzen := Real.sin zen, coszen := z, sinaz := Real.sin az, cosaz := Real.cos az }

/-- The first component assigned by `reflect`:
`new['x'] = 2*ca*cz*sz*z + x*(ca*(-ca*cz**2 + ca*sz**2) - sa**2)
          + y*(ca*sa + sa*(-ca*cz**2 + ca*sz**2))`. -/
def reflect_x (x y z : ℝ) (c : SpherCoord) : ℝ :=
  2 * c.cosaz * c.coszen * c.sinzen * z
    + x * (c.cosaz * (-c.cosaz * c.coszen ^ 2 + c.cosaz * c.sinzen ^ 2) - c.sinaz ^ 2)
    + y * (c.cosaz * c.sinaz + c.sinaz * (-c.cosaz * c.coszen ^ 2 + c.cosaz * c.sinzen ^ 2))

/-- The second component assigned by `reflect`:
`new['y'] = 2*cz*sa*sz*z + x*(ca*sa + ca*(-cz**2*sa + sa*sz**2))
          + y*(-ca**2 + sa*(-cz**2*sa + sa*sz**2))`. -/
def reflect_y (x y z : ℝ) (c : SpherCoord) : ℝ :=
  2 * c.coszen * c.sinaz * c.sinzen * z
    + x * (c.cosaz * c.sinaz + c.cosaz * (-c.coszen ^ 2 * c.sinaz + c.sinaz * c.sinzen ^ 2))
    + y * (-c.cosaz ^ 2 + c.sinaz * (-c.coszen ^ 2 * c.sinaz + c.sinaz * c.sinzen ^ 2))

/-- The third component assigned by `reflect`:
`new['z'] = 2*ca*cz*sz*x + 2*cz*sa*sz*y + z*(cz**2 - sz**2)`. -/
def reflect_z (x y z : ℝ) (c : SpherCoord) : ℝ :=
  2 * c.cosaz * c.coszen * c.sinzen * x + 2 * c.coszen * c.sinaz * c.sinzen * y
    + z * (c.coszen ^ 2 - c.sinzen ^ 2)

/-- `reflect(old, centroid, new)`: write the rotated components into a fresh
zeroed record and run `fill_from_cart` on it. -/
noncomputable def reflect (old centroid : SpherCoord) : SpherCoord :=
  fill_from_cart
    { zen := 0, az := 0,
      x := reflect_x old.x old.y old.z centroid,
      y := reflect_y old.x old.y old.z centroid,
      z := reflect_z old.x old.y old.z centroid,
      sinzen := 0, coszen := 0, sinaz := 0, cosaz := 0 }

/-- The linear reflection `new_x_cart = 2*centroid_cart - S_cart[choice[-1]]`,
one coordinate at a time. -/
def reflect_cart (centroid w : ℝ) : ℝ := 2 * centroid - w

/-- The spherical centroid of the selected candidates: average their
unit-vector components into a fresh zeroed record and run `fill_from_cart`
(`centroid_spher['x'] = (sum of selected x) / n` and likewise for y, z). -/
noncomputable def spherCentroid (sel : List SpherCoord) : SpherCoord :=
  fill_from_cart
    { zen := 0, az := 0,
      x := (sel.map SpherCoord.x).sum / sel.length,
      y := (sel.map SpherCoord.y).sum / sel.length,
      z := (sel.map SpherCoord.z).sum / sel.length,
      sinzen := 0, coszen := 0, sinaz := 0, cosaz := 0 }

/-! ### `RetroReco.run` (reco.py lines 183-219): derived combined direction -/

/-- One evaluated point of the trace, as seen by the derived-dimension block. -/
structure TracePoint where
  track_zenith : ℝ
  track_azimuth : ℝ
  track_energy : ℝ
  cascade_zenith : ℝ
  cascade_azimuth : ℝ
  cascade_energy : ℝ

/-- Modelled from the spec: `add_vectors` lives in `retro/utils/geom.py`,
which is not among the provided sources.  Per the spec (section 4.5), the
combined direction is computed "by vector-summing the track and cascade
directional contributions weighted by their energies"; the summed vector is
converted back to a radius and angles through the canonical
cartesian-to-angles conversion. -/
noncomputable def add_vectors (e1 z1 a1 e2 z2 a2 : ℝ) : ℝ × ℝ × ℝ :=
  let x := e1 * (Real.sin z1 * Real.cos a1) + e2 * (Real.sin z2 * Real.cos a2)
  let y := e1 * (Real.sin z1 * Real.sin a1) + e2 * (Real.sin z2 * Real.sin a2)
  let z := e1 * Real.cos z1 + e2 * Real.cos z2
  let r := Real.sqrt (x ^ 2 + y ^ 2 + z ^ 2)
  (r, Real.arccos (z / r), pymod (arctan2 y x) (2 * Real.pi))

/-- The combined-direction block of `RetroReco.run` for a hypothesis that has
track angles: when cascade angles are also present the directions are
combined by `add_vectors`, otherwise `llhp['zenith'] = llhp['track_zenith']`
and `llhp['azimuth'] = llhp['track_azimuth']`. -/
noncomputable def combinedDirection (hasCascadeAngles : Bool) (p : TracePoint) : ℝ × ℝ :=
  if hasCascadeAngles then
    ((add_vectors p.track_energy p.track_zenith p.track_azimuth
        p.cascade_energy p.cascade_zenith p.cascade_azimuth).2.1,
     (add_vectors p.track_energy p.track_zenith p.track_azimuth
        p.cascade_energy p.cascade_zenith p.cascade_azimuth).2.2)
  else
    (p.track_zenith, p.track_azimuth)

/-! ## Theorems -/

/-- C10: for every string number in [1, 86] and DOM number in [1, 60] with
`pmt = 0`, `get_sd_idx` succeeds with the flat index
`(om - 1) * 86 + (string - 1)` and `get_string_om_pair` inverts it back to
exactly `(string, om)`. -/
theorem sd_idx_roundtrip (string om : ℕ)
    (h1 : 1 ≤ string) (h2 : string ≤ 86) (h3 : 1 ≤ om) (h4 : om ≤ 60) :
    get_sd_idx string om 0 = Except.ok ((om - 1) * NUM_STRINGS + (string - 1)) ∧
    get_string_om_pair ((om - 1) * NUM_STRINGS + (string - 1)) = (string, om) := by
  refine ⟨by simp [get_sd_idx], ?_⟩
  simp only [get_string_om_pair, NUM_STRINGS, Prod.mk.injEq]
  omega

/-- Witness for C10 at `string = 86`, `om = 60`. -/
theorem sd_idx_roundtrip_witness :
    get_sd_idx 86 60 0 = Except.ok 5159 ∧ get_string_om_pair 5159 = (86, 60) := by
  have h := sd_idx_roundtrip 86 60 (by decide) (by decide) (by decide) (by decide)
  simpa using h

/-- C2: any value the `loglike` closure returns past its assertion guard is a
finite float that is ≤ 0 (in fact < 0), and whenever the evaluator's `llh` is
non-finite or positive the guard raises an assertion error instead of
returning. -/
theorem loglike_guard (llh : PyFloat) :
    (∀ r, loglikeCheck llh = Except.ok r → ∃ q : ℚ, r = PyFloat.val q ∧ q ≤ 0) ∧
    ((llh.isfinite = false ∨ PyFloat.plt (PyFloat.val 0) llh = true) →
      ∃ e, loglikeCheck llh = Except.error e) := by
  cases llh with
  | nan => exact ⟨fun r h => by simp [loglikeCheck, PyFloat.isfinite] at h,
      fun _ => ⟨"LLH not finite", rfl⟩⟩
  | inf => exact ⟨fun r h => by simp [loglikeCheck, PyFloat.isfinite] at h,
      fun _ => ⟨"LLH not finite", rfl⟩⟩
  | neginf => exact ⟨fun r h => by simp [loglikeCheck, PyFloat.isfinite] at h,
      fun _ => ⟨"LLH not finite", rfl⟩⟩
  | val q =>
    constructor
    · intro r h
      by_cases hq : q < 0
      · refine ⟨q, ?_, le_of_lt hq⟩
        simp [loglikeCheck, PyFloat.isfinite, PyFloat.plt, hq] at h
        exact h.symm
      · simp [loglikeCheck, PyFloat.isfinite, PyFloat.plt, hq] at h
    · rintro (hfin | hpos)
      · simp [PyFloat.isfinite] at hfin
      · have hq : 0 < q := by simpa [PyFloat.plt] using hpos
        refine ⟨"LLH positive", ?_⟩
        simp [loglikeCheck, PyFloat.isfinite, PyFloat.plt, not_lt.mpr (le_of_lt hq)]

/-- Witness for C2: a positive-infinite `llh` makes the guard raise. -/
theorem loglike_guard_witness :
    ∃ e, loglikeCheck PyFloat.inf = Except.error e :=
  (loglike_guard PyFloat.inf).2 (Or.inl rfl)

/-- The assertion block of `generate_loglike` raises whenever the total
observed charge comparison fails or the total is non-finite. -/
theorem checks_error_of_bad_charge (sensors : List EventSensor)
    (h : PyFloat.plt (.val 0)
          (fsum ((processedDoms sensors).map (·.total_observed_charge))) = false ∨
        (fsum ((processedDoms sensors).map (·.total_observed_charge))).isfinite = false) :
    ∃ e, generate_loglike_checks sensors = Except.error e := by
  unfold generate_loglike_checks
  by_cases hqe :
      ((processedDoms sensors).all fun d => decide (0 < d.quantum_efficiency)) = false
  · exact ⟨"negative QE", by simp [hqe]⟩
  · rcases h with h | h
    · exact ⟨"no charge", by simp [hqe, h]⟩
    · by_cases hplt : PyFloat.plt (.val 0)
          (fsum ((processedDoms sensors).map (·.total_observed_charge))) = false
      · exact ⟨"no charge", by simp [hqe, hplt]⟩
      · exact ⟨"inf charge", by simp [hqe, hplt, h]⟩

/-- C3: for an event whose total observed charge over all operational sensors
is zero or non-finite, the event-index construction raises before any
optimizer runs: `runEvent` returns an error no matter which optimizer would
have been invoked, so no likelihood evaluation happens. -/
theorem no_charge_precondition (sensors : List EventSensor)
    (h : fsum ((processedDoms sensors).map (·.total_observed_charge)) = PyFloat.val 0 ∨
        (fsum ((processedDoms sensors).map (·.total_observed_charge))).isfinite = false) :
    ∃ e, ∀ optimize, runEvent sensors optimize = Except.error e := by
  have hbad : PyFloat.plt (.val 0)
      (fsum ((processedDoms sensors).map (·.total_observed_charge))) = false ∨
      (fsum ((processedDoms sensors).map (·.total_observed_charge))).isfinite = false := by
    rcases h with h | h
    · left; rw [h]; simp [PyFloat.plt]
    · right; exact h
  obtain ⟨e, he⟩ := checks_error_of_bad_charge sensors hbad
  exact ⟨e, fun optimize => by simp [runEvent, he]⟩

/-- Witness for C3: one operational sensor whose single hit has zero charge. -/
theorem no_charge_precondition_witness :
    ∃ e, ∀ optimize,
      runEvent [⟨true, 0, 1, [PyFloat.val 0]⟩] optimize = Except.error e :=
  no_charge_precondition [⟨true, 0, 1, [PyFloat.val 0]⟩]
    (Or.inl (by norm_num [processedDoms, buildDomRecords, fsum, PyFloat.fadd]))

/-- C8: after the per-event array build, every record's noise rate is at least
the floor `1e-7`; a rate below the floor is set to exactly the floor and a
rate at or above it is left unchanged. -/
theorem noise_floor_invariant (sensors : List EventSensor) :
    (∀ d ∈ processedDoms sensors, NOISE_FLOOR ≤ d.noise_rate_per_ns) ∧
    (∀ r : ℚ, (r < NOISE_FLOOR → clampNoise r = NOISE_FLOOR) ∧
      (NOISE_FLOOR ≤ r → clampNoise r = r)) := by
  constructor
  · intro d hd
    obtain ⟨d', _, rfl⟩ := List.mem_map.mp hd
    show NOISE_FLOOR ≤ clampNoise d'.noise_rate_per_ns
    unfold clampNoise
    split
    · exact le_rfl
    · next hge => exact le_of_not_lt hge
  · intro r
    constructor
    · intro hr; simp [clampNoise, hr]
    · intro hr; simp [clampNoise, not_lt.mpr hr]

/-- Witness for C8: a sensor with zero noise rate is clamped to the floor, one
above the floor is untouched. -/
theorem noise_floor_invariant_witness :
    NOISE_FLOOR ≤
      (DomRecord.mk NOISE_FLOOR 1 (PyFloat.val 0)).noise_rate_per_ns ∧
    clampNoise 0 = NOISE_FLOOR ∧ clampNoise 1 = 1 := by
  refine ⟨(noise_floor_invariant [⟨true, 0, 1, []⟩]).1 _ ?_, ?_, ?_⟩
  · norm_num [processedDoms, buildDomRecords, fsum, clampNoise, NOISE_FLOOR]
  · exact ((noise_floor_invariant []).2 0).1 (by norm_num [NOISE_FLOOR])
  · exact ((noise_floor_invariant []).2 1).2 (by norm_num [NOISE_FLOOR])

/-- Folding `min` over a list never exceeds the initial accumulator. -/
theorem foldl_min_le_init (xs : List ℚ) : ∀ a : ℚ, xs.foldl min a ≤ a := by
  induction xs with
  | nil => intro a; simp
  | cons x xs ih =>
    intro a
    calc (x :: xs).foldl min a = xs.foldl min (min a x) := rfl
      _ ≤ min a x := ih _
      _ ≤ a := min_le_left _ _

/-- Folding `min` is monotone in the initial accumulator. -/
theorem foldl_min_mono (xs : List ℚ) : ∀ {a b : ℚ}, a ≤ b →
    xs.foldl min a ≤ xs.foldl min b := by
  induction xs with
  | nil => intro a b h; simpa using h
  | cons x xs ih => intro a b h; exact ih (min_le_min h (le_refl x))

/-- Replacing one entry by something no larger cannot raise the folded min. -/
theorem foldl_min_set_le (xs : List ℚ) : ∀ (i : ℕ) (v a : ℚ),
    v ≤ xs.getD i v → (xs.set i v).foldl min a ≤ xs.foldl min a := by
  induction xs with
  | nil => intros; simp
  | cons x xs ih =>
    intro i v a h
    cases i with
    | zero =>
      show (v :: xs).foldl min a ≤ (x :: xs).foldl min a
      exact foldl_min_mono xs (min_le_min (le_refl a) (by simpa using h))
    | succ i =>
      show (x :: xs.set i v).foldl min a ≤ (x :: xs).foldl min a
      exact ih i v (min a x) (by simpa using h)

/-- Replacing one entry by something no larger cannot raise `listMin`. -/
theorem listMin_set_le (l : List ℚ) (i : ℕ) (v : ℚ) (h : v ≤ l.getD i v) :
    listMin (l.set i v) ≤ listMin l := by
  cases l with
  | nil => simp [listMin]
  | cons x xs =>
    cases i with
    | zero => exact foldl_min_mono xs (by simpa using h)
    | succ i => exact foldl_min_set_le xs i v x (by simpa using h)

/-- One replacement decision never raises the population minimum. -/
theorem listMin_acceptStep_le (fx : List ℚ) (newFx : ℚ) :
    listMin (acceptStep fx newFx) ≤ listMin fx := by
  unfold acceptStep
  by_cases h : newFx < fx.getD (argmaxIdx fx) 0
  · rw [if_pos h]
    apply listMin_set_le
    by_cases hlen : argmaxIdx fx < fx.length
    · rw [List.getD_eq_getElem _ _ hlen]
      rw [List.getD_eq_getElem _ _ hlen] at h
      exact le_of_lt h
    · rw [List.getD_eq_default _ _ (le_of_not_lt hlen)]
  · rw [if_neg h]

/-- C7: across any run of the main loop the population's minimum objective is
non-increasing, and an iteration whose new objective does not strictly beat
the current worst leaves the population unchanged. -/
theorem monotone_improvement (fx vs : List ℚ) :
    listMin (runLoop fx vs) ≤ listMin fx ∧
    (∀ newFx, ¬ newFx < fx.getD (argmaxIdx fx) 0 → acceptStep fx newFx = fx) := by
  constructor
  · induction vs generalizing fx with
    | nil => exact le_rfl
    | cons v vs ih => exact le_trans (ih (acceptStep fx v)) (listMin_acceptStep_le fx v)
  · intro newFx h
    unfold acceptStep
    rw [if_neg h]

/-- Witness for C7 on a concrete two-member population. -/
theorem monotone_improvement_witness :
    listMin (runLoop [(-1 : ℚ), -5] [-3]) ≤ listMin [(-1 : ℚ), -5] ∧
    acceptStep [(-1 : ℚ), -5] 7 = [(-1 : ℚ), -5] := by
  refine ⟨(monotone_improvement [(-1 : ℚ), -5] [-3]).1, ?_⟩
  refine (monotone_improvement [(-1 : ℚ), -5] [-3]).2 7 ?_
  norm_num [argmaxIdx, List.range_succ]

/-- C1 counterexample: population objectives `[0, 1, 2, 3]` (so the best
candidate is index 0 and the worst is index 3), dimensionality `n = 2`,
population size `N = 4`, and the valid random draw `[2, 0]` of
`rand.choice(N-1, n, replace=False)`.  After the code's adjustment, the
subset averaged into the centroid is `[3, 0]`, which *contains* the worst
candidate, and the candidate reflected through the centroid is index 1,
*not* the worst candidate.  This refutes the claim that the centroid subset
always excludes the worst and that the reflected candidate is the worst. -/
theorem simplex_selection_counterexample :
    argminIdx [(0 : ℚ), 1, 2, 3] = 0 ∧
    argmaxIdx [(0 : ℚ), 1, 2, 3] = 3 ∧
    ([2, 0] : List ℕ).length = 2 ∧ ([2, 0] : List ℕ).Nodup ∧
    (∀ c ∈ ([2, 0] : List ℕ), c < 4 - 1) ∧
    argmaxIdx [(0 : ℚ), 1, 2, 3] ∈
      centroidIndices (argminIdx [(0 : ℚ), 1, 2, 3]) [2, 0] ∧
    reflectedIndex (argminIdx [(0 : ℚ), 1, 2, 3]) [2, 0] ≠
      argmaxIdx [(0 : ℚ), 1, 2, 3] := by
  have hmin : argminIdx [(0 : ℚ), 1, 2, 3] = 0 := by
    norm_num [argminIdx, List.range_succ]
  have hmax : argmaxIdx [(0 : ℚ), 1, 2, 3] = 3 := by
    norm_num [argmaxIdx, List.range_succ]
  refine ⟨hmin, hmax, rfl, by decide, by decide, ?_, ?_⟩
  · rw [hmin, hmax]; decide
  · rw [hmin, hmax]; decide

/-- The last element of a list with a fallback is the fallback or a member. -/
theorem getLastD_mem_cons_self : ∀ (l : List ℕ) (a : ℕ), l.getLastD a ∈ a :: l := by
  intro l
  induction l with
  | nil => intro a; simp
  | cons b l ih =>
    intro a
    rw [List.getLastD_cons]
    exact List.mem_cons_of_mem a (ih b)

/-- C1 amended: for every valid draw of `rand.choice(N-1, n, replace=False)`,
the subset averaged into the centroid has `n` members, contains the best
candidate, and consists of in-range population indices; the adjusted random
indices never hit the best candidate (the draw excludes the *best*, not the
worst); and the candidate reflected through the centroid is the adjusted last
random index — an in-range index that is never the best, with no guarantee of
being the worst. -/
theorem simplex_selection_amended (N n best : ℕ) (choice : List ℕ)
    (hlen : choice.length = n) (hn : 1 ≤ n) (hbest : best < N)
    (hval : ∀ c ∈ choice, c < N - 1) :
    (centroidIndices best choice).length = n ∧
    best ∈ centroidIndices best choice ∧
    (∀ i ∈ centroidIndices best choice, i < N) ∧
    (∀ c ∈ choice, adjustChoice best c ≠ best) ∧
    reflectedIndex best choice ≠ best ∧
    reflectedIndex best choice < N := by
  have hadj : ∀ c ∈ choice, adjustChoice best c ≠ best := by
    intro c _
    unfold adjustChoice
    split
    · omega
    · omega
  have hadjlt : ∀ c ∈ choice, adjustChoice best c < N := by
    intro c hc
    have := hval c hc
    unfold adjustChoice
    split <;> omega
  have hne : choice ≠ [] := by
    intro h; rw [h] at hlen; simp at hlen; omega
  have hlast : choice.getLastD 0 ∈ choice := by
    cases choice with
    | nil => exact absurd rfl hne
    | cons c cs =>
      rw [List.getLastD_cons]
      exact getLastD_mem_cons_self cs c
  refine ⟨?_, ?_, ?_, hadj, hadj _ hlast, hadjlt _ hlast⟩
  · simp only [centroidIndices, List.length_append, List.length_map,
      List.length_dropLast, List.length_cons, List.length_nil, hlen]
    omega
  · simp [centroidIndices]
  · intro i hi
    rcases List.mem_append.mp hi with hi | hi
    · obtain ⟨c, hc, rfl⟩ := List.mem_map.mp hi
      exact hadjlt c (List.dropLast_subset _ hc)
    · rw [List.mem_singleton.mp hi]; exact hbest

/-- Witness for the amended C1 at `N = 4`, `n = 2`, best index 0,
draw `[2, 0]`. -/
theorem simplex_selection_amended_witness :
    (centroidIndices 0 [2, 0]).length = 2 ∧
    0 ∈ centroidIndices 0 [2, 0] ∧
    (∀ i ∈ centroidIndices 0 [2, 0], i < 4) ∧
    (∀ c ∈ ([2, 0] : List ℕ), adjustChoice 0 c ≠ 0) ∧
    reflectedIndex 0 [2, 0] ≠ 0 ∧
    reflectedIndex 0 [2, 0] < 4 :=
  simplex_selection_amended 4 2 0 [2, 0] rfl (by decide) (by decide) (by decide)

/-! ### Geometry helper lemmas -/

/-- Python's `%` is the identity on arguments already in `[0, m)`. -/
theorem pymod_eq_self {t m : ℝ} (hm : 0 < m) (h0 : 0 ≤ t) (h1 : t < m) :
    pymod t m = t := by
  unfold pymod
  have hfl : ⌊t / m⌋ = 0 := by
    rw [Int.floor_eq_zero_iff]
    constructor
    · exact div_nonneg h0 (le_of_lt hm)
    · rw [div_lt_one hm]; exact h1
  rw [hfl]
  push_cast
  ring

/-- Python's `%` is invariant under subtracting the modulus. -/
theorem pymod_sub_self (t m : ℝ) (hm : m ≠ 0) : pymod (t - m) m = pymod t m := by
  unfold pymod
  have harg : (t - m) / m = t / m - (1 : ℤ) := by
    push_cast
    field_simp
  rw [harg, Int.floor_sub_int]
  push_cast
  ring

/-- `arctan2` of the coordinates of a unit direction in `(-π, π]` recovers
the angle. -/
theorem arctan2_cos_sin {a : ℝ} (h : a ∈ Set.Ioc (-Real.pi) Real.pi) :
    arctan2 (Real.sin a) (Real.cos a) = a := by
  unfold arctan2
  have : (⟨Real.cos a, Real.sin a⟩ : ℂ) = Complex.cos a + Complex.sin a * Complex.I := by
    apply Complex.ext <;>
      simp [Complex.cos_ofReal_re, Complex.sin_ofReal_re, Complex.add_re, Complex.add_im,
        Complex.mul_re, Complex.mul_im, Complex.I_re, Complex.I_im]
  rw [this]
  exact_mod_cast Complex.arg_cos_add_sin_mul_I h

/-- `arctan2` ignores a positive common scale factor. -/
theorem arctan2_scale (r y x : ℝ) (hr : 0 < r) :
    arctan2 (r * y) (r * x) = arctan2 y x := by
  unfold arctan2
  have : (⟨r * x, r * y⟩ : ℂ) = (r : ℂ) * ⟨x, y⟩ := by
    apply Complex.ext <;> simp [Complex.mul_re, Complex.mul_im]
  rw [this]
  exact Complex.arg_real_mul _ hr

/-- The azimuth recovery used by `fill_from_cart` (and `add_vectors`):
`arctan2` followed by Python's mod `2π` recovers any azimuth in `[0, 2π)`
from a positively scaled direction. -/
theorem pymod_arctan2_scaled (r a : ℝ) (hr : 0 < r)
    (h0 : 0 ≤ a) (h1 : a < 2 * Real.pi) :
    pymod (arctan2 (r * Real.sin a) (r * Real.cos a)) (2 * Real.pi) = a := by
  have hpi := Real.pi_pos
  rw [arctan2_scale r _ _ hr]
  by_cases hle : a ≤ Real.pi
  · rw [arctan2_cos_sin ⟨by linarith, hle⟩]
    exact pymod_eq_self (by linarith) h0 h1
  · have h2 : a - 2 * Real.pi ∈ Set.Ioc (-Real.pi) Real.pi :=
      ⟨by linarith, by linarith⟩
    have harg : arctan2 (Real.sin a) (Real.cos a) = a - 2 * Real.pi := by
      rw [← Real.cos_sub_two_pi a, ← Real.sin_sub_two_pi a]
      exact arctan2_cos_sin h2
    rw [harg, pymod_sub_self a (2 * Real.pi) (by positivity)]
    exact pymod_eq_self (by linarith) h0 h1

/-- The unit vector built by `fill_from_spher` has norm one. -/
theorem spher_norm (a z : ℝ) :
    (Real.sin z * Real.cos a) ^ 2 + (Real.sin z * Real.sin a) ^ 2
      + Real.cos z ^ 2 = 1 := by
  linear_combination (Real.sin z) ^ 2 * Real.sin_sq_add_cos_sq a
    + Real.sin_sq_add_cos_sq z

/-- Evaluation of `fill_from_cart` on a record whose vector already has unit
norm: the radius is 1, so the components are unchanged and the angles are the
canonical ones. -/
theorem fill_from_cart_unit_coords (s : SpherCoord)
    (h : s.x ^ 2 + s.y ^ 2 + s.z ^ 2 = 1) :
    (fill_from_cart s).x = s.x ∧ (fill_from_cart s).y = s.y ∧
    (fill_from_cart s).z = s.z ∧
    (fill_from_cart s).zen = Real.arccos s.z ∧
    (fill_from_cart s).az = pymod (arctan2 s.y s.x) (2 * Real.pi) ∧
    (fill_from_cart s).coszen = s.z := by
  unfold fill_from_cart
  rw [h, Real.sqrt_one]
  rw [if_neg one_ne_zero]
  norm_num

/-- C4: converting angles `(azimuth a, zenith z)` to the unit vector with
`fill_from_spher` and back with `fill_from_cart` recovers the zenith exactly
for all `z ∈ [0, π]`, and the azimuth exactly for all `a ∈ [0, 2π)` away from
the poles `z = 0` and `z = π` (at the poles the recovered azimuth is
unconstrained). -/
theorem direction_roundtrip (a z : ℝ) (ha0 : 0 ≤ a) (ha1 : a < 2 * Real.pi)
    (hz0 : 0 ≤ z) (hz1 : z ≤ Real.pi) :
    (fill_from_cart (fill_from_spher ⟨z, a, 0, 0, 0, 0, 0, 0, 0⟩)).zen = z ∧
    (z ≠ 0 → z ≠ Real.pi →
      (fill_from_cart (fill_from_spher ⟨z, a, 0, 0, 0, 0, 0, 0, 0⟩)).az = a) := by
  have hu : fill_from_spher ⟨z, a, 0, 0, 0, 0, 0, 0, 0⟩ =
      ⟨z, a, Real.sin z * Real.cos a, Real.sin z * Real.sin a, Real.cos z,
        Real.sin z, Real.cos z, Real.sin a, Real.cos a⟩ := rfl
  rw [hu]
  have hc := fill_from_cart_unit_coords
    ⟨z, a, Real.sin z * Real.cos a, Real.sin z * Real.sin a, Real.cos z,
      Real.sin z, Real.cos z, Real.sin a, Real.cos a⟩ (spher_norm a z)
  constructor
  · rw [hc.2.2.2.1]
    exact Real.arccos_cos hz0 hz1
  · intro hzne0 hznepi
    rw [hc.2.2.2.2.1]
    have hsz : 0 < Real.sin z :=
      Real.sin_pos_of_pos_of_lt_pi (lt_of_le_of_ne hz0 (Ne.symm hzne0))
        (lt_of_le_of_ne hz1 hznepi)
    exact pymod_arctan2_scaled (Real.sin z) a hsz ha0 ha1

/-- Witness for C4 at `a = 0`, `z = π / 2`. -/
theorem direction_roundtrip_witness :
    (fill_from_cart (fill_from_spher
      ⟨Real.pi / 2, 0, 0, 0, 0, 0, 0, 0, 0⟩)).zen = Real.pi / 2 ∧
    (fill_from_cart (fill_from_spher
      ⟨Real.pi / 2, 0, 0, 0, 0, 0, 0, 0, 0⟩)).az = 0 := by
  have hpi := Real.pi_pos
  have h := direction_roundtrip 0 (Real.pi / 2) le_rfl (by linarith)
    (by linarith) (by linarith)
  exact ⟨h.1, h.2 (by linarith) (by linarith)⟩

/-- `fill_from_cart` produces a unit-norm vector whenever the input vector is
not the zero vector. -/
theorem fill_from_cart_norm_one (s : SpherCoord)
    (h : ¬(s.x = 0 ∧ s.y = 0 ∧ s.z = 0)) :
    (fill_from_cart s).x ^ 2 + (fill_from_cart s).y ^ 2
      + (fill_from_cart s).z ^ 2 = 1 := by
  have hS : 0 < s.x ^ 2 + s.y ^ 2 + s.z ^ 2 := by
    by_contra hS'
    push_neg at hS'
    have h1 : s.x ^ 2 + s.y ^ 2 + s.z ^ 2 = 0 := le_antisymm hS' (by positivity)
    have hx : s.x = 0 := by
      have : s.x ^ 2 = 0 := by nlinarith [sq_nonneg s.y, sq_nonneg s.z]
      exact pow_eq_zero_iff two_ne_zero |>.mp this
    have hy : s.y = 0 := by
      have : s.y ^ 2 = 0 := by nlinarith [sq_nonneg s.x, sq_nonneg s.z]
      exact pow_eq_zero_iff two_ne_zero |>.mp this
    have hz : s.z = 0 := by
      have : s.z ^ 2 = 0 := by nlinarith [sq_nonneg s.x, sq_nonneg s.y]
      exact pow_eq_zero_iff two_ne_zero |>.mp this
    exact h ⟨hx, hy, hz⟩
  have hr : Real.sqrt (s.x ^ 2 + s.y ^ 2 + s.z ^ 2) ≠ 0 :=
    ne_of_gt (Real.sqrt_pos.mpr hS)
  unfold fill_from_cart
  rw [if_neg hr]
  dsimp only
  rw [div_pow, div_pow, div_pow, div_add_div_same, div_add_div_same,
    Real.sq_sqrt hS.le]
  exact div_self (ne_of_gt hS)

/-- `fill_from_cart` on the zero vector takes the degenerate branch: the
direction is fixed to the pole `zen = 0` with `z = 1`, `az = 0`, and the
`x`, `y` components are left as they were. -/
theorem fill_from_cart_zero (s : SpherCoord)
    (h : s.x = 0 ∧ s.y = 0 ∧ s.z = 0) :
    fill_from_cart s =
      { s with z := 1, az := 0, zen := 0, coszen := 1, sinzen := 0, cosaz := 1, sinaz := 0 } := by
  have hS : Real.sqrt (s.x ^ 2 + s.y ^ 2 + s.z ^ 2) = 0 := by
    rw [h.1, h.2.1, h.2.2]; simp
  unfold fill_from_cart
  rw [if_pos hS]

/-- C5: the spherical centroid — unit-vector components averaged and passed
through `fill_from_cart` — has unit-norm `(x, y, z)` whenever the averaged
vector is nonzero; when the averaged vector is exactly zero the centroid
direction is fixed to the pole `zenith = 0` (`z = 1`, `azimuth = 0`). -/
theorem centroid_normalization (sel : List SpherCoord) :
    (¬((sel.map SpherCoord.x).sum / (sel.length : ℝ) = 0 ∧
        (sel.map SpherCoord.y).sum / (sel.length : ℝ) = 0 ∧
        (sel.map SpherCoord.z).sum / (sel.length : ℝ) = 0) →
      (spherCentroid sel).x ^ 2 + (spherCentroid sel).y ^ 2
        + (spherCentroid sel).z ^ 2 = 1) ∧
    (((sel.map SpherCoord.x).sum / (sel.length : ℝ) = 0 ∧
        (sel.map SpherCoord.y).sum / (sel.length : ℝ) = 0 ∧
        (sel.map SpherCoord.z).sum / (sel.length : ℝ) = 0) →
      (spherCentroid sel).zen = 0 ∧ (spherCentroid sel).az = 0 ∧
      (spherCentroid sel).z = 1 ∧ (spherCentroid sel).x = 0 ∧
      (spherCentroid sel).y = 0) := by
  constructor
  · intro h
    exact fill_from_cart_norm_one _ h
  · intro h
    unfold spherCentroid
    rw [fill_from_cart_zero _ h]
    exact ⟨rfl, rfl, rfl, h.1, h.2.1⟩

/-- Witness for C5: a single candidate pointing at the pole gives a unit-norm
centroid; the empty average (zero vector) takes the degenerate pole branch. -/
theorem centroid_normalization_witness :
    (spherCentroid [⟨0, 0, 0, 0, 1, 0, 0, 0, 0⟩]).x ^ 2 +
      (spherCentroid [⟨0, 0, 0, 0, 1, 0, 0, 0, 0⟩]).y ^ 2 +
      (spherCentroid [⟨0, 0, 0, 0, 1, 0, 0, 0, 0⟩]).z ^ 2 = 1 ∧
    (spherCentroid ([] : List SpherCoord)).zen = 0 ∧
    (spherCentroid ([] : List SpherCoord)).z = 1 := by
  constructor
  · exact (centroid_normalization [⟨0, 0, 0, 0, 1, 0, 0, 0, 0⟩]).1 (by norm_num)
  · have h := (centroid_normalization ([] : List SpherCoord)).2 (by norm_num)
    exact ⟨h.1, h.2.2.1⟩

/-- Given consistent trig caches, `reflect_x` is the first component of the
reflection `2 (p · c) c - p` through the centroid direction `c`. -/
theorem reflect_x_eq (x y z : ℝ) (c : SpherCoord)
    (hA : c.cosaz ^ 2 + c.sinaz ^ 2 = 1) (hZ : c.coszen ^ 2 + c.sinzen ^ 2 = 1) :
    reflect_x x y z c =
      2 * (x * (c.sinzen * c.cosaz) + y * (c.sinzen * c.sinaz) + z * c.coszen)
        * (c.sinzen * c.cosaz) - x := by
  unfold reflect_x
  linear_combination (-(x * c.cosaz ^ 2) - y * c.cosaz * c.sinaz) * hZ + (-x) * hA

/-- Given consistent trig caches, `reflect_y` is the second component of the
reflection `2 (p · c) c - p` through the centroid direction `c`. -/
theorem reflect_y_eq (x y z : ℝ) (c : SpherCoord)
    (hA : c.cosaz ^ 2 + c.sinaz ^ 2 = 1) (hZ : c.coszen ^ 2 + c.sinzen ^ 2 = 1) :
    reflect_y x y z c =
      2 * (x * (c.sinzen * c.cosaz) + y * (c.sinzen * c.sinaz) + z * c.coszen)
        * (c.sinzen * c.sinaz) - y := by
  unfold reflect_y
  linear_combination (-(y * c.sinaz ^ 2) - x * c.cosaz * c.sinaz) * hZ + (-y) * hA

/-- Given consistent trig caches, `reflect_z` is the third component of the
reflection `2 (p · c) c - p` through the centroid direction `c`. -/
theorem reflect_z_eq (x y z : ℝ) (c : SpherCoord)
    (hZ : c.coszen ^ 2 + c.sinzen ^ 2 = 1) :
    reflect_z x y z c =
      2 * (x * (c.sinzen * c.cosaz) + y * (c.sinzen * c.sinaz) + z * c.coszen)
        * c.coszen - z := by
  unfold reflect_z
  linear_combination (-z) * hZ

/-- The centroid's cached unit vector has norm one when its trig caches are
consistent. -/
theorem centroid_vec_norm (c : SpherCoord)
    (hA : c.cosaz ^ 2 + c.sinaz ^ 2 = 1) (hZ : c.coszen ^ 2 + c.sinzen ^ 2 = 1) :
    (c.sinzen * c.cosaz) ^ 2 + (c.sinzen * c.sinaz) ^ 2 + c.coszen ^ 2 = 1 := by
  linear_combination c.sinzen ^ 2 * hA + hZ

/-- The raw spherical reflection preserves the squared norm. -/
theorem reflect_norm (x y z : ℝ) (c : SpherCoord)
    (hA : c.cosaz ^ 2 + c.sinaz ^ 2 = 1) (hZ : c.coszen ^ 2 + c.sinzen ^ 2 = 1) :
    reflect_x x y z c ^ 2 + reflect_y x y z c ^ 2 + reflect_z x y z c ^ 2 =
      x ^ 2 + y ^ 2 + z ^ 2 := by
  rw [reflect_x_eq x y z c hA hZ, reflect_y_eq x y z c hA hZ, reflect_z_eq x y z c hZ]
  have hc := centroid_vec_norm c hA hZ
  set d := x * (c.sinzen * c.cosaz) + y * (c.sinzen * c.sinaz) + z * c.coszen with hd
  linear_combination (4 * d ^ 2) * hc + (4 * d) * hd

/-- The raw spherical reflection fixes the inner product with the centroid
direction. -/
theorem dot_reflect (x y z : ℝ) (c : SpherCoord)
    (hA : c.cosaz ^ 2 + c.sinaz ^ 2 = 1) (hZ : c.coszen ^ 2 + c.sinzen ^ 2 = 1) :
    reflect_x x y z c * (c.sinzen * c.cosaz) + reflect_y x y z c * (c.sinzen * c.sinaz)
      + reflect_z x y z c * c.coszen =
    x * (c.sinzen * c.cosaz) + y * (c.sinzen * c.sinaz) + z * c.coszen := by
  rw [reflect_x_eq x y z c hA hZ, reflect_y_eq x y z c hA hZ, reflect_z_eq x y z c hZ]
  have hc := centroid_vec_norm c hA hZ
  set d := x * (c.sinzen * c.cosaz) + y * (c.sinzen * c.sinaz) + z * c.coszen with hd
  linear_combination (2 * d) * hc + hd

/-- Applying the raw spherical reflection twice restores the first component. -/
theorem reflect_invol_x (x y z : ℝ) (c : SpherCoord)
    (hA : c.cosaz ^ 2 + c.sinaz ^ 2 = 1) (hZ : c.coszen ^ 2 + c.sinzen ^ 2 = 1) :
    reflect_x (reflect_x x y z c) (reflect_y x y z c) (reflect_z x y z c) c = x := by
  rw [reflect_x_eq (reflect_x x y z c) (reflect_y x y z c) (reflect_z x y z c) c hA hZ,
    dot_reflect x y z c hA hZ, reflect_x_eq x y z c hA hZ]
  ring

/-- Applying the raw spherical reflection twice restores the second component. -/
theorem reflect_invol_y (x y z : ℝ) (c : SpherCoord)
    (hA : c.cosaz ^ 2 + c.sinaz ^ 2 = 1) (hZ : c.coszen ^ 2 + c.sinzen ^ 2 = 1) :
    reflect_y (reflect_x x y z c) (reflect_y x y z c) (reflect_z x y z c) c = y := by
  rw [reflect_y_eq (reflect_x x y z c) (reflect_y x y z c) (reflect_z x y z c) c hA hZ,
    dot_reflect x y z c hA hZ, reflect_y_eq x y z c hA hZ]
  ring

/-- Applying the raw spherical reflection twice restores the third component. -/
theorem reflect_invol_z (x y z : ℝ) (c : SpherCoord)
    (hA : c.cosaz ^ 2 + c.sinaz ^ 2 = 1) (hZ : c.coszen ^ 2 + c.sinzen ^ 2 = 1) :
    reflect_z (reflect_x x y z c) (reflect_y x y z c) (reflect_z x y z c) c = z := by
  rw [reflect_z_eq (reflect_x x y z c) (reflect_y x y z c) (reflect_z x y z c) c hZ,
    dot_reflect x y z c hA hZ, reflect_z_eq x y z c hZ]
  ring

/-- C6: reflecting through a centroid twice is the identity — exactly for the
linear reflection `new = 2*centroid - worst`, and exactly (hence within any
numerical tolerance) for the spherical reflection `reflect` applied to a
unit-norm point with a centroid whose trig caches are consistent (as
`fill_from_cart` guarantees for every computed centroid). -/
theorem reflection_involution :
    (∀ centroid w : ℝ, reflect_cart centroid (reflect_cart centroid w) = w) ∧
    (∀ (old c : SpherCoord),
      old.x ^ 2 + old.y ^ 2 + old.z ^ 2 = 1 →
      c.cosaz ^ 2 + c.sinaz ^ 2 = 1 → c.coszen ^ 2 + c.sinzen ^ 2 = 1 →
      (reflect (reflect old c) c).x = old.x ∧
      (reflect (reflect old c) c).y = old.y ∧
      (reflect (reflect old c) c).z = old.z) := by
  constructor
  · intro centroid w
    unfold reflect_cart
    ring
  · intro old c h1 hA hZ
    have hn1 : reflect_x old.x old.y old.z c ^ 2 + reflect_y old.x old.y old.z c ^ 2
        + reflect_z old.x old.y old.z c ^ 2 = 1 := by
      rw [reflect_norm old.x old.y old.z c hA hZ]; exact h1
    have hq := fill_from_cart_unit_coords
      ⟨0, 0, reflect_x old.x old.y old.z c, reflect_y old.x old.y old.z c,
        reflect_z old.x old.y old.z c, 0, 0, 0, 0⟩ hn1
    have hqx : (reflect old c).x = reflect_x old.x old.y old.z c := hq.1
    have hqy : (reflect old c).y = reflect_y old.x old.y old.z c := hq.2.1
    have hqz : (reflect old c).z = reflect_z old.x old.y old.z c := hq.2.2.1
    have h2 : reflect (reflect old c) c = fill_from_cart
        ⟨0, 0, reflect_x (reflect old c).x (reflect old c).y (reflect old c).z c,
          reflect_y (reflect old c).x (reflect old c).y (reflect old c).z c,
          reflect_z (reflect old c).x (reflect old c).y (reflect old c).z c,
          0, 0, 0, 0⟩ := rfl
    rw [h2, hqx, hqy, hqz]
    have hinvx := reflect_invol_x old.x old.y old.z c hA hZ
    have hinvy := reflect_invol_y old.x old.y old.z c hA hZ
    have hinvz := reflect_invol_z old.x old.y old.z c hA hZ
    have hn2 : reflect_x (reflect_x old.x old.y old.z c) (reflect_y old.x old.y old.z c)
          (reflect_z old.x old.y old.z c) c ^ 2 +
        reflect_y (reflect_x old.x old.y old.z c) (reflect_y old.x old.y old.z c)
          (reflect_z old.x old.y old.z c) c ^ 2 +
        reflect_z (reflect_x old.x old.y old.z c) (reflect_y old.x old.y old.z c)
          (reflect_z old.x old.y old.z c) c ^ 2 = 1 := by
      rw [hinvx, hinvy, hinvz]; exact h1
    have h2e := fill_from_cart_unit_coords
      ⟨0, 0, reflect_x (reflect_x old.x old.y old.z c) (reflect_y old.x old.y old.z c)
          (reflect_z old.x old.y old.z c) c,
        reflect_y (reflect_x old.x old.y old.z c) (reflect_y old.x old.y old.z c)
          (reflect_z old.x old.y old.z c) c,
        reflect_z (reflect_x old.x old.y old.z c) (reflect_y old.x old.y old.z c)
          (reflect_z old.x old.y old.z c) c, 0, 0, 0, 0⟩ hn2
    exact ⟨by rw [h2e.1]; exact hinvx, by rw [h2e.2.1]; exact hinvy,
      by rw [h2e.2.2.1]; exact hinvz⟩

/-- Witness for C6: a point on the x-axis reflected twice through the pole
centroid, plus a concrete linear reflection pair. -/
theorem reflection_involution_witness :
    reflect_cart 3 (reflect_cart 3 5) = 5 ∧
    ((reflect (reflect ⟨0, 0, 1, 0, 0, 0, 0, 0, 0⟩ ⟨0, 0, 0, 0, 1, 0, 1, 0, 1⟩)
        ⟨0, 0, 0, 0, 1, 0, 1, 0, 1⟩).x = 1 ∧
      (reflect (reflect ⟨0, 0, 1, 0, 0, 0, 0, 0, 0⟩ ⟨0, 0, 0, 0, 1, 0, 1, 0, 1⟩)
        ⟨0, 0, 0, 0, 1, 0, 1, 0, 1⟩).y = 0 ∧
      (reflect (reflect ⟨0, 0, 1, 0, 0, 0, 0, 0, 0⟩ ⟨0, 0, 0, 0, 1, 0, 1, 0, 1⟩)
        ⟨0, 0, 0, 0, 1, 0, 1, 0, 1⟩).z = 0) :=
  ⟨reflection_involution.1 3 5,
    reflection_involution.2 ⟨0, 0, 1, 0, 0, 0, 0, 0, 0⟩ ⟨0, 0, 0, 0, 1, 0, 1, 0, 1⟩
      (by norm_num) (by norm_num) (by norm_num)⟩

/-- C9: for a track-only hypothesis the combined direction equals the track
direction exactly.  When the hypothesis has no cascade angle dimensions,
`run` copies `track_zenith`/`track_azimuth` into `zenith`/`azimuth` verbatim
for every trace point.  When cascade angle dimensions exist but the cascade
energy is 0, the energy-weighted vector sum of `add_vectors` reduces to the
track vector, so the combined angles are again exactly the track's (for a
track with positive energy and a direction away from the poles). -/
theorem track_only_direction :
    (∀ p : TracePoint, combinedDirection false p = (p.track_zenith, p.track_azimuth)) ∧
    (∀ p : TracePoint, p.cascade_energy = 0 → 0 < p.track_energy →
      0 ≤ p.track_azimuth → p.track_azimuth < 2 * Real.pi →
      0 < p.track_zenith → p.track_zenith < Real.pi →
      combinedDirection true p = (p.track_zenith, p.track_azimuth)) := by
  constructor
  · intro p
    rfl
  · intro p h0 he ha0 ha1 hz0 hz1
    have hs : 0 < Real.sin p.track_zenith := Real.sin_pos_of_pos_of_lt_pi hz0 hz1
    unfold combinedDirection add_vectors
    rw [if_pos rfl]
    rw [h0]
    dsimp only
    have hx : p.track_energy * (Real.sin p.track_zenith * Real.cos p.track_azimuth)
        + 0 * (Real.sin p.cascade_zenith * Real.cos p.cascade_azimuth)
        = p.track_energy * (Real.sin p.track_zenith * Real.cos p.track_azimuth) := by
      ring
    have hy : p.track_energy * (Real.sin p.track_zenith * Real.sin p.track_azimuth)
        + 0 * (Real.sin p.cascade_zenith * Real.sin p.cascade_azimuth)
        = p.track_energy * (Real.sin p.track_zenith * Real.sin p.track_azimuth) := by
      ring
    have hz : p.track_energy * Real.cos p.track_zenith + 0 * Real.cos p.cascade_zenith
        = p.track_energy * Real.cos p.track_zenith := by
      ring
    rw [hx, hy, hz]
    have hr : Real.sqrt
        ((p.track_energy * (Real.sin p.track_zenith * Real.cos p.track_azimuth)) ^ 2 +
          (p.track_energy * (Real.sin p.track_zenith * Real.sin p.track_azimuth)) ^ 2 +
          (p.track_energy * Real.cos p.track_zenith) ^ 2) = p.track_energy := by

      have hsum : (p.track_energy * (Real.sin p.track_zenith * Real.cos p.track_azimuth)) ^ 2 +
          (p.track_energy * (Real.sin p.track_zenith * Real.sin p.track_azimuth)) ^ 2 +
          (p.track_energy * Real.cos p.track_zenith) ^ 2 = p.track_energy ^ 2 := by
        linear_combination p.track_energy ^ 2 *
          spher_norm p.track_azimuth p.track_zenith
      rw [hsum]
      exact Real.sqrt_sq he.le
    rw [hr]
    refine Prod.ext ?_ ?_
    · show Real.arccos (p.track_energy * Real.cos p.track_zenith / p.track_energy) = _
      rw [mul_div_cancel_left₀ _ (ne_of_gt he)]
      exact Real.arccos_cos hz0.le hz1.le
    · show pymod (arctan2 (p.track_energy * (Real.sin p.track_zenith * Real.sin p.track_azimuth))
        (p.track_energy * (Real.sin p.track_zenith * Real.cos p.track_azimuth))) (2 * Real.pi) = _
      have h1 : p.track_energy * (Real.sin p.track_zenith * Real.sin p.track_azimuth)
          = p.track_energy * Real.sin p.track_zenith * Real.sin p.track_azimuth := by ring
      have h2 : p.track_energy * (Real.sin p.track_zenith * Real.cos p.track_azimuth)
          = p.track_energy * Real.sin p.track_zenith * Real.cos p.track_azimuth := by ring
      rw [h1, h2]
      exact pymod_arctan2_scaled _ _ (by positivity) ha0 ha1

/-- Witness for C9: the no-cascade branch on an arbitrary concrete point, and
the cascade-energy-zero branch for a track along `zenith = π/2`,
`azimuth = 0` with energy 1. -/
theorem track_only_direction_witness :
    combinedDirection false ⟨1, 2, 3, 4, 5, 6⟩ = (1, 2) ∧
    combinedDirection true ⟨Real.pi / 2, 0, 1, 1, 1, 0⟩ = (Real.pi / 2, 0) := by
  have hpi := Real.pi_pos
  refine ⟨track_only_direction.1 ⟨1, 2, 3, 4, 5, 6⟩, ?_⟩
  exact track_only_direction.2 ⟨Real.pi / 2, 0, 1, 1, 1, 0⟩ rfl (by norm_num)
    le_rfl (by linarith) (by linarith) (by linarith)

end Retro
